import Mathlib

/-!
Verification of the in-memory password-manager store (src/main.py).

The Python program keeps one global mapping
`_category_map : { category : { key : KeyDTO } }` and a class
`InMemoryStorage` whose methods read and mutate it.  We embed that state
as an association list (Python dicts are insertion ordered, assignment to
an existing key replaces in place, and `pop` drops the entry), and each
mutating method becomes a function `Store -> ... -> Store x result`.
The FastAPI endpoint `create_credentials` (PUT /{category}/{key}) is the
upsert operation; it is embedded as well since the create-or-update
disambiguation lives there.
-/

namespace PasswordManager

/-- `KeyDTO` from src/main.py: a stored credential with metadata.
`password_strength` is the string "weak" or "strong" (a `Literal` in the
source). -/
structure KeyDTO where
  username : String
  password : String
  created_at : String
  updated_at : String
  password_strength : String
  deriving DecidableEq

/-- Python dict lookup `m[k]` / `k in m`, first (unique) matching key. -/
def dictGet {α : Type} (m : List (String × α)) (k : String) : Option α :=
  match m with
  | [] => none
  | (k1, v) :: rest => if k1 = k then some v else dictGet rest k

/-- Python dict assignment `m[k] = v`: replaces in place when `k` is
present, appends at the end otherwise (insertion order preserved). -/
def dictSet {α : Type} (m : List (String × α)) (k : String) (v : α) :
    List (String × α) :=
  match m with
  | [] => [(k, v)]
  | (k1, v1) :: rest =>
      if k1 = k then (k, v) :: rest else (k1, v1) :: dictSet rest k v

/-- Python `m.pop(k)`: removes the entry for `k` (keys are unique in a
dict, so removing the first occurrence models it). -/
def dictPop {α : Type} (m : List (String × α)) (k : String) :
    List (String × α) :=
  match m with
  | [] => []
  | (k1, v1) :: rest => if k1 = k then rest else (k1, v1) :: dictPop rest k

/-- One category: mapping from credential key to stored `KeyDTO`. -/
abbrev CategoryMap := List (String × KeyDTO)

/-- The global `_category_map`: category name to its credential map. -/
abbrev Store := List (String × CategoryMap)

/-- `InMemoryStorage.category_exist`: `category in _category_map`. -/
def category_exist (s : Store) (c : String) : Bool :=
  (dictGet s c).isSome

/-- `InMemoryStorage.key_exist`: false when the category is absent,
otherwise `key in _category_map[category]`. -/
def key_exist (s : Store) (c k : String) : Bool :=
  if category_exist s c = false then false
  else
    match dictGet s c with
    | some m => (dictGet m k).isSome
    | none => false

/-- `InMemoryStorage.get_categories`: `list(_category_map.keys())`. -/
def get_categories (s : Store) : List String :=
  s.map Prod.fst

/-- `InMemoryStorage.create_category`: returns false and leaves the map
alone when the category exists, otherwise installs an empty dict. -/
def create_category (s : Store) (c : String) : Store × Bool :=
  if category_exist s c then (s, false)
  else (dictSet s c [], true)

/-- `InMemoryStorage.get_category`: `None` when absent, else the list of
credential keys of the category. -/
def get_category (s : Store) (c : String) : Option (List String) :=
  if category_exist s c = false then none
  else (dictGet s c).map (fun m => m.map Prod.fst)

/-- `InMemoryStorage.delete_category`: false when absent, else
`_category_map.pop(category)`. -/
def delete_category (s : Store) (c : String) : Store × Bool :=
  if category_exist s c = false then (s, false)
  else (dictPop s c, true)

/-- `InMemoryStorage.create_credential`: writes a fresh `KeyDTO` with
`created_at = updated_at = now` and the strength recomputed from the new
password (`"weak" if len(password) < 13 else "strong"`).  The `none`
branch corresponds to Python raising `KeyError` on a missing category; it
is unreachable because every caller checks `category_exist` first. -/
def create_credential (s : Store) (c k u p now : String) : Store :=
  match dictGet s c with
  | some m =>
      dictSet s c (dictSet m k
        { username := u, password := p, created_at := now, updated_at := now,
          password_strength := if p.length < 13 then "weak" else "strong" })
  | none => s

/-- `InMemoryStorage.get_credential`: the Python method returns the falsy
sentinel `{}` when `key_exist` fails and the stored (always truthy)
`KeyDTO` otherwise; `none` embeds the `{}` sentinel. -/
def get_credential (s : Store) (c k : String) : Option KeyDTO :=
  if key_exist s c k = false then none
  else
    match dictGet s c with
    | some m => dictGet m k
    | none => none

/-- Python truthiness of the value `get_credential` returns: the empty
dict `{}` is falsy; a pydantic `KeyDTO` instance defines neither
`bool` nor `len` conversions, so it is truthy whatever its fields hold. -/
def py_truthy (r : Option KeyDTO) : Bool :=
  match r with
  | none => false
  | some _ => true

/-- `InMemoryStorage.update_credential`: fetches the old credential
(`if not old_credential: return False` fires exactly on the `{}`
sentinel), overwrites username/password, resets `updated_at`, recomputes
the strength from the new password and writes the object back.
`created_at` is never assigned.  The inner `none` branch mirrors a
`KeyError` that cannot fire once `get_credential` has succeeded. -/
def update_credential (s : Store) (c k u p now : String) : Store × Bool :=
  match get_credential s c k with
  | none => (s, false)
  | some old =>
      match dictGet s c with
      | some m =>
          (dictSet s c (dictSet m k
            { old with
              username := u
              password := p
              updated_at := now
              password_strength :=
                if p.length < 13 then "weak" else "strong" }), true)
      | none => (s, false)

/-- `InMemoryStorage.delete_credential`: false when the entry is absent,
else `_category_map[category].pop(key)`. -/
def delete_credential (s : Store) (c k : String) : Store × Bool :=
  if key_exist s c k = false then (s, false)
  else
    match dictGet s c with
    | some m => (dictSet s c (dictPop m k), true)
    | none => (s, false)

/-- Outcome of the upsert endpoint, by the branch the code takes:
404 Category Not Found, or 201 via the update path or the create path. -/
inductive UpsertOutcome
  | created
  | updated
  | categoryNotFound
  deriving DecidableEq

/-- Endpoint `create_credentials` (PUT /{category_name}/{key}): 404 when
the category is absent, otherwise update when the key exists, else
create. -/
def create_credentials (s : Store) (c k u p now : String) :
    Store × UpsertOutcome :=
  if category_exist s c = false then (s, .categoryNotFound)
  else if key_exist s c k then
    ((update_credential s c k u p now).1, .updated)
  else
    (create_credential s c k u p now, .created)

/-! ### Association-list lemmas (Python dict semantics) -/

theorem dictGet_dictSet_self {α : Type} (m : List (String × α)) (k : String)
    (v : α) : dictGet (dictSet m k v) k = some v := by
  induction m with
  | nil => simp [dictGet, dictSet]
  | cons hd tl ih =>
      obtain ⟨k1, v1⟩ := hd
      by_cases h : k1 = k
      · simp [dictGet, dictSet, h]
      · simp [dictGet, dictSet, h, ih]

theorem dictGet_dictSet_ne {α : Type} (m : List (String × α)) {k q : String}
    (v : α) (hne : q ≠ k) : dictGet (dictSet m k v) q = dictGet m q := by
  induction m with
  | nil => simp [dictGet, dictSet, Ne.symm hne]
  | cons hd tl ih =>
      obtain ⟨k1, v1⟩ := hd
      by_cases h : k1 = k
      · subst h
        simp [dictGet, dictSet, Ne.symm hne]
      · simp only [dictSet, if_neg h]
        by_cases h2 : k1 = q
        · simp [dictGet, h2]
        · simp [dictGet, h2, ih]

theorem dictGet_mem {α : Type} {m : List (String × α)} {k : String} {v : α}
    (h : dictGet m k = some v) : (k, v) ∈ m := by
  induction m with
  | nil => simp [dictGet] at h
  | cons hd tl ih =>
      obtain ⟨k1, v1⟩ := hd
      by_cases hk : k1 = k
      · subst hk
        simp [dictGet] at h
        simp [h]
      · simp [dictGet, hk] at h
        exact List.mem_cons_of_mem _ (ih h)

theorem mem_dictSet {α : Type} {m : List (String × α)} {k : String} {v : α}
    {x : String × α} (hx : x ∈ dictSet m k v) : x = (k, v) ∨ x ∈ m := by
  induction m with
  | nil => simpa [dictSet] using hx
  | cons hd tl ih =>
      obtain ⟨k1, v1⟩ := hd
      by_cases h : k1 = k
      · simp [dictSet, h] at hx
        rcases hx with hx | hx
        · exact Or.inl hx
        · exact Or.inr (List.mem_cons_of_mem _ hx)
      · simp [dictSet, h] at hx
        rcases hx with hx | hx
        · exact Or.inr (by simp [hx])
        · rcases ih hx with hx2 | hx2
          · exact Or.inl hx2
          · exact Or.inr (List.mem_cons_of_mem _ hx2)

theorem mem_dictPop {α : Type} {m : List (String × α)} {k : String}
    {x : String × α} (hx : x ∈ dictPop m k) : x ∈ m := by
  induction m with
  | nil => simp [dictPop] at hx
  | cons hd tl ih =>
      obtain ⟨k1, v1⟩ := hd
      by_cases h : k1 = k
      · simp [dictPop, h] at hx
        exact List.mem_cons_of_mem _ hx
      · simp [dictPop, h] at hx
        rcases hx with hx | hx
        · simp [hx]
        · exact List.mem_cons_of_mem _ (ih hx)

theorem dictGet_isSome_iff {α : Type} (m : List (String × α)) (k : String) :
    (dictGet m k).isSome = true ↔ k ∈ m.map Prod.fst := by
  induction m with
  | nil => simp [dictGet]
  | cons hd tl ih =>
      obtain ⟨k1, v1⟩ := hd
      by_cases h : k1 = k
      · simp [dictGet, h]
      · simp only [dictGet, if_neg h, List.map_cons, List.mem_cons]
        rw [ih]
        constructor
        · exact Or.inr
        · rintro (rfl | hmem)
          · exact absurd rfl h
          · exact hmem

theorem dictGet_eq_none_of_not_mem {α : Type} {m : List (String × α)}
    {k : String} (h : k ∉ m.map Prod.fst) : dictGet m k = none := by
  cases hg : dictGet m k with
  | none => rfl
  | some v =>
      exact absurd ((dictGet_isSome_iff m k).1 (by simp [hg])) h

theorem dictGet_dictPop_self {α : Type} (m : List (String × α)) (k : String)
    (hnd : (m.map Prod.fst).Nodup) : dictGet (dictPop m k) k = none := by
  induction m with
  | nil => simp [dictGet, dictPop]
  | cons hd tl ih =>
      obtain ⟨k1, v1⟩ := hd
      rw [List.map_cons, List.nodup_cons] at hnd
      by_cases h : k1 = k
      · subst h
        simp only [dictPop, if_pos rfl]
        exact dictGet_eq_none_of_not_mem hnd.1
      · simp [dictPop, h, dictGet, ih hnd.2]

theorem not_mem_keys_dictPop {α : Type} (m : List (String × α)) (k : String)
    (hnd : (m.map Prod.fst).Nodup) : k ∉ (dictPop m k).map Prod.fst := by
  intro hmem
  have := (dictGet_isSome_iff (dictPop m k) k).2 hmem
  rw [dictGet_dictPop_self m k hnd] at this
  simp at this

/-! ### Operation-level lemmas -/

theorem key_exist_true_iff (s : Store) (c k : String) :
    key_exist s c k = true ↔
      ∃ m e, dictGet s c = some m ∧ dictGet m k = some e := by
  cases h1 : dictGet s c with
  | none => simp [key_exist, category_exist, h1]
  | some m =>
      cases h2 : dictGet m k with
      | none => simp [key_exist, category_exist, h1, h2]
      | some e => simp [key_exist, category_exist, h1, h2]

theorem get_credential_eq_some (s : Store) (c k : String) {m : CategoryMap}
    {e : KeyDTO} (hm : dictGet s c = some m) (he : dictGet m k = some e) :
    get_credential s c k = some e := by
  have hk : key_exist s c k = true :=
    (key_exist_true_iff s c k).2 ⟨m, e, hm, he⟩
  simp [get_credential, hk, hm, he]

theorem get_credential_eq_none (s : Store) (c k : String)
    (hk : key_exist s c k = false) : get_credential s c k = none := by
  simp [get_credential, hk]

theorem get_credential_none_iff (s : Store) (c k : String) :
    get_credential s c k = none ↔ key_exist s c k = false := by
  constructor
  · intro h
    by_contra hk
    rw [Bool.not_eq_false] at hk
    obtain ⟨m, e, hm, he⟩ := (key_exist_true_iff s c k).1 hk
    rw [get_credential_eq_some s c k hm he] at h
    exact Option.some_ne_none e h
  · exact get_credential_eq_none s c k

theorem get_credential_dictSet (s : Store) (c k : String) (m : CategoryMap)
    (e : KeyDTO) :
    get_credential (dictSet s c (dictSet m k e)) c k = some e :=
  get_credential_eq_some _ c k (dictGet_dictSet_self s c _)
    (dictGet_dictSet_self m k e)

theorem create_credential_eq (s : Store) (c k u p now : String)
    {m : CategoryMap} (hm : dictGet s c = some m) :
    create_credential s c k u p now =
      dictSet s c (dictSet m k
        ⟨u, p, now, now, if p.length < 13 then "weak" else "strong"⟩) := by
  simp [create_credential, hm]

theorem update_credential_eq (s : Store) (c k u p now : String)
    {m : CategoryMap} {old : KeyDTO} (hm : dictGet s c = some m)
    (he : dictGet m k = some old) :
    update_credential s c k u p now =
      (dictSet s c (dictSet m k
        ⟨u, p, old.created_at, now,
          if p.length < 13 then "weak" else "strong"⟩), true) := by
  have hg := get_credential_eq_some s c k hm he
  simp [update_credential, hg, hm]

theorem category_exist_iff_mem (s : Store) (c : String) :
    category_exist s c = true ↔ c ∈ s.map Prod.fst := by
  simp [category_exist, dictGet_isSome_iff]

/-! ### Reachable states and the strength invariant -/

/-- States of `_category_map` reachable through the public mutating
operations from the empty initial map, with arbitrary timestamp strings
standing for `datetime.now().strftime(...)`. -/
inductive Reachable : Store → Prop
  | init : Reachable []
  | createCat (s : Store) (c : String) :
      Reachable s → Reachable (create_category s c).1
  | deleteCat (s : Store) (c : String) :
      Reachable s → Reachable (delete_category s c).1
  | upsert (s : Store) (c k u p now : String) :
      Reachable s → Reachable (create_credentials s c k u p now).1
  | deleteCred (s : Store) (c k : String) :
      Reachable s → Reachable (delete_credential s c k).1

/-- A stored credential whose strength label agrees with its password. -/
def EntryInv (e : KeyDTO) : Prop :=
  e.password_strength = if e.password.length < 13 then "weak" else "strong"

/-- Every credential anywhere in the store satisfies `EntryInv`. -/
def StoreInv (s : Store) : Prop :=
  ∀ c m, (c, m) ∈ s → ∀ k e, (k, e) ∈ m → EntryInv e

theorem storeInv_dictSet_inner {s : Store} {c k : String} {m : CategoryMap}
    {e : KeyDTO} (hs : StoreInv s) (hm : dictGet s c = some m)
    (he : EntryInv e) : StoreInv (dictSet s c (dictSet m k e)) := by
  intro c2 m2 hmem k2 e2 hmem2
  rcases mem_dictSet hmem with hx | hx
  · obtain ⟨hc2, hm2⟩ := Prod.mk.injEq .. ▸ hx
    subst hm2
    rcases mem_dictSet hmem2 with hy | hy
    · obtain ⟨hk2, he2⟩ := Prod.mk.injEq .. ▸ hy
      subst he2
      exact he
    · exact hs c m (dictGet_mem hm) k2 e2 hy
  · exact hs c2 m2 hx k2 e2 hmem2

theorem storeInv_create_category {s : Store} (c : String) (hs : StoreInv s) :
    StoreInv (create_category s c).1 := by
  by_cases h : category_exist s c
  · simpa [create_category, h] using hs
  · simp only [create_category, if_neg h]
    intro c2 m2 hmem k2 e2 hmem2
    rcases mem_dictSet hmem with hx | hx
    · obtain ⟨hc2, hm2⟩ := Prod.mk.injEq .. ▸ hx
      subst hm2
      simp at hmem2
    · exact hs c2 m2 hx k2 e2 hmem2

theorem storeInv_delete_category {s : Store} (c : String) (hs : StoreInv s) :
    StoreInv (delete_category s c).1 := by
  by_cases h : category_exist s c = false
  · simpa [delete_category, h] using hs
  · simp only [delete_category, if_neg h]
    intro c2 m2 hmem k2 e2 hmem2
    exact hs c2 m2 (mem_dictPop hmem) k2 e2 hmem2

theorem storeInv_delete_credential {s : Store} (c k : String)
    (hs : StoreInv s) : StoreInv (delete_credential s c k).1 := by
  by_cases h : key_exist s c k = false
  · simpa [delete_credential, h] using hs
  · cases hm : dictGet s c with
    | none =>
        simp [delete_credential, h, hm]
        exact hs
    | some m =>
        simp only [delete_credential, if_neg h, hm]
        intro c2 m2 hmem k2 e2 hmem2
        rcases mem_dictSet hmem with hx | hx
        · obtain ⟨hc2, hm2⟩ := Prod.mk.injEq .. ▸ hx
          subst hm2
          exact hs c m (dictGet_mem hm) k2 e2 (mem_dictPop hmem2)
        · exact hs c2 m2 hx k2 e2 hmem2

theorem storeInv_upsert {s : Store} (c k u p now : String) (hs : StoreInv s) :
    StoreInv (create_credentials s c k u p now).1 := by
  by_cases hc : category_exist s c = false
  · simpa [create_credentials, hc] using hs
  · by_cases hk : key_exist s c k
    · obtain ⟨m, old, hm, he⟩ := (key_exist_true_iff s c k).1 hk
      simp only [create_credentials, if_neg hc, if_pos hk,
        update_credential_eq s c k u p now hm he]
      exact storeInv_dictSet_inner hs hm rfl
    · have hm : ∃ m, dictGet s c = some m := by
        rw [Bool.not_eq_false, category_exist, Option.isSome_iff_exists] at hc
        exact hc
      obtain ⟨m, hm⟩ := hm
      simp only [create_credentials, if_neg hc, if_neg hk,
        create_credential_eq s c k u p now hm]
      exact storeInv_dictSet_inner hs hm rfl

theorem reachable_storeInv {s : Store} (h : Reachable s) : StoreInv s := by
  induction h with
  | init => intro c m hmem k e hmem2; simp at hmem
  | createCat s c _ ih => exact storeInv_create_category c ih
  | deleteCat s c _ ih => exact storeInv_delete_category c ih
  | upsert s c k u p now _ ih => exact storeInv_upsert c k u p now ih
  | deleteCred s c k _ ih => exact storeInv_delete_credential c k ih

theorem strength_weak_iff (p : String) :
    (if p.length < 13 then "weak" else "strong") = "weak" ↔ p.length < 13 := by
  by_cases h : p.length < 13 <;> simp [h]

theorem key_exist_false_iff (s : Store) (c k : String) :
    key_exist s c k = false ↔
      (category_exist s c = false ∨
        ∃ m, dictGet s c = some m ∧ dictGet m k = none) := by
  cases h1 : dictGet s c with
  | none => simp [key_exist, category_exist, h1]
  | some m =>
      cases h2 : dictGet m k with
      | none => simp [key_exist, category_exist, h1, h2]
      | some e => simp [key_exist, category_exist, h1, h2]

theorem key_exist_false_of_no_category {s : Store} {c : String}
    (h : category_exist s c = false) (k : String) :
    key_exist s c k = false := by
  simp [key_exist, h]

theorem get_credential_some_inv {s : Store} {c k : String} {e : KeyDTO}
    (h : get_credential s c k = some e) :
    ∃ m, dictGet s c = some m ∧ dictGet m k = some e := by
  by_cases hk : key_exist s c k = false
  · rw [get_credential_eq_none s c k hk] at h
    exact absurd h (by simp)
  · rw [Bool.not_eq_false] at hk
    obtain ⟨m, e2, hm, he⟩ := (key_exist_true_iff s c k).1 hk
    rw [get_credential_eq_some s c k hm he] at h
    obtain rfl : e2 = e := Option.some.inj h
    exact ⟨m, hm, he⟩

theorem create_credentials_update_path (s : Store) (c k u p now : String)
    {m : CategoryMap} {old : KeyDTO} (hm : dictGet s c = some m)
    (he : dictGet m k = some old) :
    create_credentials s c k u p now =
      (dictSet s c (dictSet m k
        ⟨u, p, old.created_at, now,
          if p.length < 13 then "weak" else "strong"⟩),
       UpsertOutcome.updated) := by
  have hc : category_exist s c = true := by simp [category_exist, hm]
  have hk : key_exist s c k = true :=
    (key_exist_true_iff s c k).2 ⟨m, old, hm, he⟩
  simp [create_credentials, hc, hk, update_credential_eq s c k u p now hm he]

theorem create_credentials_create_path (s : Store) (c k u p now : String)
    {m : CategoryMap} (hm : dictGet s c = some m)
    (hk : key_exist s c k = false) :
    create_credentials s c k u p now =
      (dictSet s c (dictSet m k
        ⟨u, p, now, now, if p.length < 13 then "weak" else "strong"⟩),
       UpsertOutcome.created) := by
  have hc : category_exist s c = true := by simp [category_exist, hm]
  simp [create_credentials, hc, hk, create_credential_eq s c k u p now hm]

/-! ### Claims -/

/-- C1: on both the create path and the update path of the upsert
endpoint, the stored credential holds the new password, its strength is
"weak" exactly when the new password has fewer than 13 characters and
"strong" otherwise (never carried over from the previous value), so a
13-character password classifies as "strong" and a 12-character one as
"weak". -/
theorem c1_strength_recomputed_on_every_write (s : Store)
    (c k u p now : String) (hc : category_exist s c = true) :
    ∃ e : KeyDTO,
      get_credential (create_credentials s c k u p now).1 c k = some e ∧
      e.password = p ∧
      e.password_strength = (if p.length < 13 then "weak" else "strong") ∧
      (e.password_strength = "weak" ↔ p.length < 13) ∧
      (p.length = 13 → e.password_strength = "strong") ∧
      (p.length = 12 → e.password_strength = "weak") := by
  by_cases hk : key_exist s c k
  · obtain ⟨m, old, hm, he⟩ := (key_exist_true_iff s c k).1 hk
    rw [create_credentials_update_path s c k u p now hm he]
    refine ⟨_, get_credential_dictSet s c k m _, rfl, rfl,
      strength_weak_iff p, ?_, ?_⟩
    · intro h13
      simp [KeyDTO.password_strength, h13]
    · intro h12
      simp [KeyDTO.password_strength, h12]
  · rw [Bool.not_eq_true] at hk
    obtain ⟨m, hm⟩ :=
      Option.isSome_iff_exists.1 (by simpa [category_exist] using hc)
    rw [create_credentials_create_path s c k u p now hm hk]
    refine ⟨_, get_credential_dictSet s c k m _, rfl, rfl,
      strength_weak_iff p, ?_, ?_⟩
    · intro h13
      simp [KeyDTO.password_strength, h13]
    · intro h12
      simp [KeyDTO.password_strength, h12]

/-- C2: when an entry already exists at (category, key), the upsert
endpoint overwrites username and password, stamps `updated_at` with the
current time and recomputes the strength, while `created_at` keeps the
stored entry's value; on first creation `created_at = updated_at = now`. -/
theorem c2_created_at_preserved (s : Store) (c k u p now : String) :
    (∀ old, get_credential s c k = some old →
       get_credential (create_credentials s c k u p now).1 c k =
         some ⟨u, p, old.created_at, now,
           if p.length < 13 then "weak" else "strong"⟩) ∧
    (category_exist s c = true → key_exist s c k = false →
       get_credential (create_credentials s c k u p now).1 c k =
         some ⟨u, p, now, now,
           if p.length < 13 then "weak" else "strong"⟩) := by
  constructor
  · intro old hold
    obtain ⟨m, hm, he⟩ := get_credential_some_inv hold
    rw [create_credentials_update_path s c k u p now hm he]
    exact get_credential_dictSet s c k m _
  · intro hc hk
    obtain ⟨m, hm⟩ :=
      Option.isSome_iff_exists.1 (by simpa [category_exist] using hc)
    rw [create_credentials_create_path s c k u p now hm hk]
    exact get_credential_dictSet s c k m _

/-- C3: the upsert endpoint on a nonexistent category returns the store
unchanged and signals the category-not-found outcome (HTTP 404). -/
theorem c3_upsert_missing_category (s : Store) (c k u p now : String)
    (hc : category_exist s c = false) :
    create_credentials s c k u p now = (s, UpsertOutcome.categoryNotFound) := by
  simp [create_credentials, hc]

/-- C4: the credential read is reported absent (the falsy `{}` sentinel)
exactly when the category or the key within it is absent, and a present
entry is truthy even when both its username and password are empty
strings — presence and absence are never conflated. -/
theorem c4_get_entry_absent_iff (s : Store) (c k : String) :
    (py_truthy (get_credential s c k) = false ↔
      (category_exist s c = false ∨
        ∃ m, dictGet s c = some m ∧ dictGet m k = none)) ∧
    (∀ e, get_credential s c k = some e → e.username = "" →
       e.password = "" → py_truthy (get_credential s c k) = true) := by
  have h1 : py_truthy (get_credential s c k) = false ↔
      get_credential s c k = none := by
    cases get_credential s c k <;> simp [py_truthy]
  constructor
  · exact h1.trans ((get_credential_none_iff s c k).trans
      (key_exist_false_iff s c k))
  · intro e he _ _
    simp [he, py_truthy]

/-- C5: `create_category` on an existing name returns false and leaves
the store untouched (so, with unique names, exactly one category of that
name remains and its entry listing is unchanged) — a clean result value,
not an exception; on a fresh name it returns true and installs an empty
category. -/
theorem c5_create_category (s : Store) (c : String) :
    (category_exist s c = true →
       create_category s c = (s, false) ∧
       (List.Nodup (s.map Prod.fst) →
         (get_categories (create_category s c).1).count c = 1) ∧
       get_category (create_category s c).1 c = get_category s c) ∧
    (category_exist s c = false →
       (create_category s c).2 = true ∧
       get_category (create_category s c).1 c = some []) := by
  constructor
  · intro hc
    have heq : create_category s c = (s, false) := by
      simp [create_category, hc]
    refine ⟨heq, ?_, by rw [heq]⟩
    intro hnd
    rw [heq]
    exact List.count_eq_one_of_mem hnd ((category_exist_iff_mem s c).1 hc)
  · intro hc
    have h1 : (create_category s c).1 = dictSet s c [] := by
      simp [create_category, hc]
    constructor
    · simp [create_category, hc]
    · rw [h1]
      simp [get_category, category_exist, dictGet_dictSet_self]

/-- C6: `delete_category` returns false on an absent name; on success it
removes the category with every entry it contained, so the category no
longer exists and every credential read under it reports absence. -/
theorem c6_delete_category (s : Store) (c : String)
    (hnd : List.Nodup (s.map Prod.fst)) :
    (category_exist s c = false → delete_category s c = (s, false)) ∧
    (category_exist s c = true →
       (delete_category s c).2 = true ∧
       category_exist (delete_category s c).1 c = false ∧
       (∀ k, get_credential (delete_category s c).1 c k = none)) := by
  constructor
  · intro hc
    simp [delete_category, hc]
  · intro hc
    have h1 : delete_category s c = (dictPop s c, true) := by
      simp [delete_category, hc]
    have h2 : category_exist (dictPop s c) c = false := by
      simp [category_exist, dictGet_dictPop_self s c hnd]
    refine ⟨by rw [h1], by rw [h1]; exact h2, ?_⟩
    intro k
    rw [h1]
    exact get_credential_eq_none _ c k (key_exist_false_of_no_category h2 k)

/-- C7: listing a category's entries reports not-found exactly when the
category does not exist; an existing category yields the list of its
keys, in particular an empty list (not a not-found signal) when it holds
no entries. -/
theorem c7_list_entries (s : Store) (c : String) :
    (get_category s c = none ↔ category_exist s c = false) ∧
    (∀ m, dictGet s c = some m → get_category s c = some (m.map Prod.fst)) ∧
    (dictGet s c = some [] → get_category s c = some []) := by
  refine ⟨?_, ?_, ?_⟩
  · cases h : dictGet s c with
    | none => simp [get_category, category_exist, h]
    | some m => simp [get_category, category_exist, h]
  · intro m hm
    simp [get_category, category_exist, hm]
  · intro hm
    simp [get_category, category_exist, hm]

/-- C8: deleting a credential returns false and leaves the store alone
when the category or the key is absent; when the entry exists it removes
exactly that key, after which reading it reports absence and the
category's key listing no longer contains it. -/
theorem c8_delete_entry (s : Store) (c k : String) :
    (key_exist s c k = false → delete_credential s c k = (s, false)) ∧
    (∀ m, dictGet s c = some m → (m.map Prod.fst).Nodup →
       (dictGet m k).isSome = true →
       (delete_credential s c k).2 = true ∧
       get_credential (delete_credential s c k).1 c k = none ∧
       (∃ l, get_category (delete_credential s c k).1 c = some l ∧
         k ∉ l)) := by
  constructor
  · intro hk
    simp [delete_credential, hk]
  · intro m hm hnd hsome
    obtain ⟨e, he⟩ := Option.isSome_iff_exists.1 hsome
    have hk : key_exist s c k = true :=
      (key_exist_true_iff s c k).2 ⟨m, e, hm, he⟩
    have h1 : delete_credential s c k = (dictSet s c (dictPop m k), true) := by
      simp [delete_credential, hk, hm]
    have hget : dictGet (dictSet s c (dictPop m k)) c = some (dictPop m k) :=
      dictGet_dictSet_self s c _
    have hkex : key_exist (dictSet s c (dictPop m k)) c k = false := by
      rw [key_exist_false_iff]
      exact Or.inr ⟨dictPop m k, hget, dictGet_dictPop_self m k hnd⟩
    refine ⟨by rw [h1], ?_, ?_⟩
    · rw [h1]
      exact get_credential_eq_none _ c k hkex
    · rw [h1]
      refine ⟨(dictPop m k).map Prod.fst, ?_, not_mem_keys_dictPop m k hnd⟩
      simp [get_category, category_exist, hget]

/-- C10: in every store reachable through the public operations, every
stored credential's strength label agrees with its stored password:
"weak" exactly when the password has fewer than 13 characters, "strong"
otherwise. -/
theorem c10_strength_invariant (s : Store) (h : Reachable s) :
    ∀ c m k e, dictGet s c = some m → dictGet m k = some e →
      e.password_strength =
        (if e.password.length < 13 then "weak" else "strong") ∧
      (e.password_strength = "weak" ↔ e.password.length < 13) := by
  intro c m k e hm he
  have hinv : EntryInv e :=
    reachable_storeInv h c m (dictGet_mem hm) k e (dictGet_mem he)
  exact ⟨hinv, by rw [hinv]; exact strength_weak_iff e.password⟩

/-! ### Witnesses: the claim theorems applied at concrete inputs -/

/-- C1 witness: upserting a 13-character password into an existing
category stores it with strength "strong". -/
theorem c1_witness :
    category_exist [("web", [])] "web" = true ∧
    (∃ e : KeyDTO,
      get_credential
        (create_credentials [("web", [])] "web" "gmail" "alice"
          "exactly13char" "t1").1 "web" "gmail" = some e ∧
      e.password = "exactly13char" ∧
      e.password_strength =
        (if ("exactly13char" : String).length < 13 then "weak"
          else "strong") ∧
      (e.password_strength = "weak" ↔
        ("exactly13char" : String).length < 13) ∧
      (("exactly13char" : String).length = 13 →
        e.password_strength = "strong") ∧
      (("exactly13char" : String).length = 12 →
        e.password_strength = "weak")) :=
  ⟨by decide,
   c1_strength_recomputed_on_every_write [("web", [])] "web" "gmail"
     "alice" "exactly13char" "t1" (by decide)⟩

/-- C2 witness: updating an existing entry keeps its `created_at` "t1"
while `updated_at` becomes "t2"; creating a fresh entry sets both to the
same stamp. -/
theorem c2_witness :
    get_credential
      (create_credentials
        [("web", [("gmail", ⟨"alice", "pw", "t1", "t1", "weak"⟩)])]
        "web" "gmail" "bob" "p2" "t2").1 "web" "gmail" =
      some ⟨"bob", "p2", "t1", "t2", "weak"⟩ ∧
    get_credential
      (create_credentials [("web", [])] "web" "gmail" "bob" "p2" "t2").1
        "web" "gmail" =
      some ⟨"bob", "p2", "t2", "t2", "weak"⟩ :=
  ⟨(c2_created_at_preserved
      [("web", [("gmail", ⟨"alice", "pw", "t1", "t1", "weak"⟩)])]
      "web" "gmail" "bob" "p2" "t2").1
      ⟨"alice", "pw", "t1", "t1", "weak"⟩ (by decide),
   (c2_created_at_preserved [("web", [])] "web" "gmail" "bob" "p2" "t2").2
      (by decide) (by decide)⟩

/-- C3 witness: upsert against the empty store leaves it empty and
reports the missing category. -/
theorem c3_witness :
    create_credentials [] "web" "gmail" "alice" "pw" "t1" =
      ([], UpsertOutcome.categoryNotFound) :=
  c3_upsert_missing_category [] "web" "gmail" "alice" "pw" "t1" (by decide)

/-- C4 witness: an entry whose username and password are both empty is
still reported present. -/
theorem c4_witness :
    py_truthy
      (get_credential [("web", [("gmail", ⟨"", "", "t1", "t1", "weak"⟩)])]
        "web" "gmail") = true :=
  (c4_get_entry_absent_iff
      [("web", [("gmail", ⟨"", "", "t1", "t1", "weak"⟩)])] "web" "gmail").2
    ⟨"", "", "t1", "t1", "weak"⟩ (by decide) rfl rfl

/-- C5 witness: a duplicate create fails cleanly leaving one copy; a
fresh create yields an empty category. -/
theorem c5_witness :
    create_category [("web", [])] "web" = ([("web", [])], false) ∧
    (get_categories (create_category [("web", [])] "web").1).count "web"
      = 1 ∧
    (create_category [] "vault").2 = true ∧
    get_category (create_category [] "vault").1 "vault" = some [] :=
  ⟨((c5_create_category [("web", [])] "web").1 (by decide)).1,
   ((c5_create_category [("web", [])] "web").1 (by decide)).2.1 (by decide),
   ((c5_create_category [] "vault").2 (by decide)).1,
   ((c5_create_category [] "vault").2 (by decide)).2⟩

/-- C6 witness: deleting a populated category removes it and its entry. -/
theorem c6_witness :
    (delete_category
      [("web", [("gmail", ⟨"alice", "pw", "t1", "t1", "weak"⟩)])]
      "web").2 = true ∧
    category_exist
      (delete_category
        [("web", [("gmail", ⟨"alice", "pw", "t1", "t1", "weak"⟩)])]
        "web").1 "web" = false ∧
    get_credential
      (delete_category
        [("web", [("gmail", ⟨"alice", "pw", "t1", "t1", "weak"⟩)])]
        "web").1 "web" "gmail" = none :=
  have h :=
    (c6_delete_category
      [("web", [("gmail", ⟨"alice", "pw", "t1", "t1", "weak"⟩)])]
      "web" (by decide)).2 (by decide)
  ⟨h.1, h.2.1, h.2.2 "gmail"⟩

/-- C7 witness: an existing empty category lists as the empty sequence. -/
theorem c7_witness :
    get_category [("web", [])] "web" = some [] :=
  (c7_list_entries [("web", [])] "web").2.2 (by decide)

/-- C8 witness: deleting the only entry of a category succeeds, the read
then reports absence and the listing no longer holds the key. -/
theorem c8_witness :
    (delete_credential
      [("web", [("gmail", ⟨"alice", "pw", "t1", "t1", "weak"⟩)])]
      "web" "gmail").2 = true ∧
    get_credential
      (delete_credential
        [("web", [("gmail", ⟨"alice", "pw", "t1", "t1", "weak"⟩)])]
        "web" "gmail").1 "web" "gmail" = none ∧
    (∃ l, get_category
        (delete_credential
          [("web", [("gmail", ⟨"alice", "pw", "t1", "t1", "weak"⟩)])]
          "web" "gmail").1 "web" = some l ∧ "gmail" ∉ l) :=
  (c8_delete_entry
      [("web", [("gmail", ⟨"alice", "pw", "t1", "t1", "weak"⟩)])]
      "web" "gmail").2
    [("gmail", ⟨"alice", "pw", "t1", "t1", "weak"⟩)]
    (by decide) (by decide) (by decide)

/-- C10 witness: in the store reached by creating a category and then
upserting a 5-character password, the stored label is "weak" and agrees
with the password length. -/
theorem c10_witness :
    (KeyDTO.mk "alice" "short" "t1" "t1" "weak").password_strength =
      (if (KeyDTO.mk "alice" "short" "t1" "t1" "weak").password.length < 13
        then "weak" else "strong") ∧
    ((KeyDTO.mk "alice" "short" "t1" "t1" "weak").password_strength =
        "weak" ↔
      (KeyDTO.mk "alice" "short" "t1" "t1" "weak").password.length < 13) :=
  c10_strength_invariant
    (create_credentials (create_category [] "web").1 "web" "gmail" "alice"
      "short" "t1").1
    (Reachable.upsert (create_category [] "web").1 "web" "gmail" "alice"
      "short" "t1" (Reachable.createCat [] "web" Reachable.init))
    "web" [("gmail", KeyDTO.mk "alice" "short" "t1" "t1" "weak")] "gmail"
    (KeyDTO.mk "alice" "short" "t1" "t1" "weak") (by decide) (by decide)

end PasswordManager
